import Mathlib

/-!
Verification of the PDF-catalog logic of `src/app.py`, a Streamlit front end
for a Backblaze B2 bucket.  The external Streamlit/B2-SDK calls are modelled
as oracle parameters (`Except` results of the SDK calls); the pure catalog
construction of tab 2 (lines 135-155), the signed-URL helper
(`get_signed_url`, lines 63-76), the download helper
(`download_file_from_b2`, lines 37-60) and the "Visualizar PDF" branch
(lines 172-230) are embedded statement by statement.  Strings are modelled
as `List Char`, a Python `dict` as an association list with CPython's
insertion-order semantics, and Python's stable `list.sort` as insertion
sort with a non-strict comparison (both produce the unique list that is
descending by key with ties in original order).
-/

namespace B2App

/-- A stored-object version record as returned by `bucket.ls()`; the fields
are exactly those read by `app.py`: `id_`, `file_name`, `size`,
`upload_timestamp` (epoch milliseconds). -/
structure FileVersion where
  id_ : String
  file_name : List Char
  size : Nat
  upload_timestamp : Nat
deriving DecidableEq

/-- The dictionary value built at lines 143-148 of `app.py`:
`id`, `name`, `size`, `upload_timestamp`. -/
structure CatalogEntry where
  id : String
  name : List Char
  size : Nat
  upload_timestamp : Nat
deriving DecidableEq

/-- The accepted extension, the literal `'.pdf'` of line 142. -/
def pdfExt : List Char := ['.', 'p', 'd', 'f']

/-- Python's `s.endswith(suf)`: the last `len(suf)` characters of `s` equal
`suf` (false when `s` is shorter than `suf`). -/
def pyEndswith (s suf : List Char) : Bool :=
  suf == s.drop (s.length - suf.length)

/-- The dictionary value construction of lines 143-148. -/
def mkEntry (fv : FileVersion) : CatalogEntry :=
  ⟨fv.id_, fv.file_name, fv.size, fv.upload_timestamp⟩

/-- Python `dict` assignment `d[k] = v` with CPython's insertion-order
semantics: assigning to an existing key replaces the value in place (keeping
the key's position), assigning a fresh key appends it at the end. -/
def dictInsert (d : List (List Char × CatalogEntry)) (k : List Char)
    (v : CatalogEntry) : List (List Char × CatalogEntry) :=
  if d.any (fun p => p.1 == k) then
    d.map (fun p => if p.1 == k then (k, v) else p)
  else
    d ++ [(k, v)]

/-- Python `dict` lookup `d[k]` as an `Option`. -/
def dictFind (d : List (List Char × CatalogEntry)) (k : List Char) :
    Option CatalogEntry :=
  (d.find? (fun p => p.1 == k)).map Prod.snd

/-- One iteration of the loop at lines 139-148: skip records whose name does
not end in `.pdf`, otherwise assign `files[file_name] = ...`
unconditionally, with no timestamp comparison. -/
def filesStep (d : List (List Char × CatalogEntry)) (fv : FileVersion) :
    List (List Char × CatalogEntry) :=
  if pyEndswith fv.file_name pdfExt then
    dictInsert d fv.file_name (mkEntry fv)
  else
    d

/-- The `files` dictionary after the whole loop of lines 136-148, starting
from `files = ` the empty dict. -/
def files (fvs : List FileVersion) : List (List Char × CatalogEntry) :=
  fvs.foldl filesStep []

/-- The comparison under `file_list.sort` with key `upload_timestamp` and
`reverse=True` (line 155): entry `a` may precede entry `b` exactly when
`b`'s timestamp is at most `a`'s. -/
def catalogLE (a b : CatalogEntry) : Prop :=
  b.upload_timestamp ≤ a.upload_timestamp

instance : DecidableRel catalogLE :=
  fun a b => Nat.decLe b.upload_timestamp a.upload_timestamp

instance : IsTotal CatalogEntry catalogLE :=
  ⟨fun a b => Nat.le_total b.upload_timestamp a.upload_timestamp⟩

instance : IsTrans CatalogEntry catalogLE :=
  ⟨fun _ _ _ hab hbc => Nat.le_trans hbc hab⟩

/-- Lines 152-155: `file_list = list(files.values())` followed by the stable
in-place sort by `upload_timestamp` descending.  Python's `list.sort` is
stable; insertion sort with the non-strict relation `catalogLE` produces the
same list (descending by timestamp, ties in original order). -/
def file_list (fvs : List FileVersion) : List CatalogEntry :=
  List.insertionSort catalogLE ((files fvs).map Prod.snd)

/-- The invariant maintained by the catalog dictionary: keys are distinct,
every value's `name` equals its key, and every value passed the `.pdf`
filter. -/
def dictInv (d : List (List Char × CatalogEntry)) : Prop :=
  (d.map Prod.fst).Nodup ∧
  ∀ p ∈ d, p.1 = p.2.name ∧ pyEndswith p.2.name pdfExt = true

/-- The last record of `fvs` (in input order) whose name passes the `.pdf`
filter and equals `k`, converted to a catalog entry. -/
def lastPdfMatch (fvs : List FileVersion) (k : List Char) : Option CatalogEntry :=
  ((fvs.filter (fun fv => pyEndswith fv.file_name pdfExt && fv.file_name == k)).getLast?).map
    mkEntry

/-- A Streamlit message rendered to the user: `st.error`, `st.success` or
`st.info`. -/
inductive StMsg where
  | error (s : String)
  | success (s : String)
  | info (s : String)
deriving DecidableEq

/-- Whether a rendered message is an `st.error` box. -/
def isErrorMsg : StMsg → Bool
  | StMsg.error _ => true
  | _ => false

/-- Lines 63-76, `get_signed_url`: the two SDK calls
(`get_download_authorization`, `get_download_url`) are oracles; any
exception is caught, shown via `st.error`, and `None` is returned; on
success the base URL and token are concatenated. -/
def get_signed_url (authResult urlResult : Except String String) :
    Option String × List StMsg :=
  match authResult with
  | Except.error e => (none, [StMsg.error ("Erro ao gerar URL assinada: " ++ e)])
  | Except.ok tok =>
    match urlResult with
    | Except.error e => (none, [StMsg.error ("Erro ao gerar URL assinada: " ++ e)])
    | Except.ok base => (some (base ++ "?Authorization=" ++ tok), [])

/-- Whether the temporary scratch file written by `download_file_from_b2`
exists after the call returns or raises. -/
structure TempState where
  present : Bool
deriving DecidableEq

/-- Lines 37-60, `download_file_from_b2`.  Oracles: `fetchResult` is the
`download_file_by_id` call (on failure the temp file was never opened),
`saveResult` the `save(f)` streaming into the already-opened temp file,
`readResult` the subsequent read of the temp file.  The code removes the
temp file only after a successful read; the `except` branch shows
`st.error` and re-raises without any cleanup, so on a save or read failure
the temp file stays on disk. -/
def download_file_from_b2 (fetchResult : Except String (List Nat))
    (saveResult readResult : Except String Unit) :
    TempState × Except String (List Nat) × List StMsg :=
  match fetchResult with
  | Except.error e =>
      (⟨false⟩, Except.error e, [StMsg.error ("Erro ao baixar arquivo: " ++ e)])
  | Except.ok content =>
    match saveResult with
    | Except.error e =>
        (⟨true⟩, Except.error e, [StMsg.error ("Erro ao baixar arquivo: " ++ e)])
    | Except.ok _ =>
      match readResult with
      | Except.error e =>
          (⟨true⟩, Except.error e, [StMsg.error ("Erro ao baixar arquivo: " ++ e)])
      | Except.ok _ => (⟨false⟩, Except.ok content, [])

/-- The base64 alphabet used by Python's `base64.b64encode`. -/
def b64Table : List Char :=
  "ABCDEFGHIJKLMNOPQRSTUVWXYZabcdefghijklmnopqrstuvwxyz0123456789+/".toList

/-- The base64 character for a 6-bit value. -/
def b64Char (n : Nat) : Char := b64Table.getD n '?'

/-- Standard base64 of a byte list, as computed by `base64.b64encode`. -/
def b64encode : List Nat → List Char
  | [] => []
  | [a] => [b64Char (a / 4), b64Char (a % 4 * 16), '=', '=']
  | [a, b] =>
      [b64Char (a / 4), b64Char (a % 4 * 16 + b / 16), b64Char (b % 16 * 4), '=']
  | a :: b :: c :: rest =>
      b64Char (a / 4) :: b64Char (a % 4 * 16 + b / 16) ::
        b64Char (b % 16 * 4 + c / 64) :: b64Char (c % 64) :: b64encode rest

/-- The final rendering of the "Visualizar PDF" button: a link to the signed
URL, a link to an inline base64 data URL, or a terminal error report. -/
inductive ViewOutcome where
  | signedLink (url : String)
  | dataUrl (href : List Char)
  | failed (msg : String)
deriving DecidableEq

/-- The `data:application/pdf;base64,...` href built at line 213. -/
def dataPdfHref (pdfBytes : List Nat) : List Char :=
  "data:application/pdf;base64,".toList ++ b64encode pdfBytes

/-- Lines 172-230, the "Visualizar PDF" branch: generate a signed URL; if it
is `None`, show an error, fall back to downloading the bytes and render an
inline base64 data URL; any exception of the fallback is caught by the outer
handler and reported. -/
def visualizarPdf (authResult urlResult : Except String String)
    (fetchResult : Except String (List Nat))
    (saveResult readResult : Except String Unit) : ViewOutcome × List StMsg :=
  match get_signed_url authResult urlResult with
  | (some url, msgs) =>
      (ViewOutcome.signedLink url,
        msgs ++ [StMsg.success "URL autorizada gerada com sucesso!"])
  | (none, msgs) =>
    let msgs2 := msgs ++
      [StMsg.error "Não foi possível gerar a URL. Tentando método alternativo..."]
    match download_file_from_b2 fetchResult saveResult readResult with
    | (_, Except.ok pdfBytes, dmsgs) =>
        (ViewOutcome.dataUrl (dataPdfHref pdfBytes),
          msgs2 ++ dmsgs ++ [StMsg.success "PDF carregado usando método alternativo!"])
    | (_, Except.error e, dmsgs) =>
        (ViewOutcome.failed ("Erro ao visualizar arquivo: " ++ e),
          msgs2 ++ dmsgs ++ [StMsg.error ("Erro ao visualizar arquivo: " ++ e)])

/-- A record appended to `st.session_state.uploaded_files` at lines 117-122. -/
structure SessionUpload where
  name : List Char
  id : String
  size : Nat
  timestamp : Nat
deriving DecidableEq

/-- Lines 94-125 of tab 1: on a successful upload (oracle `uploadResult`
carrying the new file id) a `SessionUpload` is appended to the per-session
list; on failure the list is unchanged. -/
def uploadTab1Append (session : List SessionUpload)
    (uploadResult : Except String String) (fileName : List Char)
    (fileSize : Nat) (now : Nat) : List SessionUpload :=
  match uploadResult with
  | Except.ok fid => session ++ [⟨fileName, fid, fileSize, now⟩]
  | Except.error _ => session

/-- The catalog computed by tab 2 (lines 130-155) as a function of the full
per-session state: the session upload list is in scope
(`st.session_state.uploaded_files`) but the code derives the catalog from
the `bucket.ls()` listing alone and never reads the session list. -/
def tab2Catalog (sessionUploads : List SessionUpload)
    (listing : List FileVersion) : List CatalogEntry :=
  file_list listing

lemma keys_dictInsert (d : List (List Char × CatalogEntry)) (k : List Char)
    (v : CatalogEntry) :
    (dictInsert d k v).map Prod.fst =
      if d.any (fun p => p.1 == k) then d.map Prod.fst
      else d.map Prod.fst ++ [k] := by
  unfold dictInsert
  split
  · rw [List.map_map]
    refine List.map_congr_left (fun p _ => ?_)
    by_cases h : p.1 = k
    · simp [beq_iff_eq, h]
    · simp [beq_iff_eq, h]
  · simp

lemma mem_dictInsert {d : List (List Char × CatalogEntry)} {k : List Char}
    {v : CatalogEntry} {p : List Char × CatalogEntry}
    (hp : p ∈ dictInsert d k v) : p = (k, v) ∨ p ∈ d := by
  unfold dictInsert at hp
  split at hp
  · rcases List.mem_map.1 hp with ⟨q, hq, hqe⟩
    subst hqe
    by_cases h : q.1 = k
    · simp [beq_iff_eq, h]
    · simp [beq_iff_eq, h, hq]
  · rcases List.mem_append.1 hp with h | h
    · exact Or.inr h
    · left
      simpa using h

lemma dictInv_dictInsert {d : List (List Char × CatalogEntry)}
    {fv : FileVersion} (hd : dictInv d)
    (hpdf : pyEndswith fv.file_name pdfExt = true) :
    dictInv (dictInsert d fv.file_name (mkEntry fv)) := by
  obtain ⟨hnd, hmem⟩ := hd
  constructor
  · rw [keys_dictInsert]
    split
    · exact hnd
    · next hany =>
      refine hnd.append (List.nodup_singleton _) ?_
      intro x hx hx2
      have hxk : x = fv.file_name := by simpa using hx2
      subst hxk
      rcases List.mem_map.1 hx with ⟨q, hq, hq1⟩
      apply hany
      rw [List.any_eq_true]
      exact ⟨q, hq, by simp [beq_iff_eq, hq1]⟩
  · intro p hp
    rcases mem_dictInsert hp with rfl | hp2
    · exact ⟨rfl, hpdf⟩
    · exact hmem p hp2

lemma dictInv_filesStep {d : List (List Char × CatalogEntry)}
    (hd : dictInv d) (fv : FileVersion) : dictInv (filesStep d fv) := by
  unfold filesStep
  split
  · next h => exact dictInv_dictInsert hd h
  · exact hd

lemma dictInv_foldl (fvs : List FileVersion)
    (d : List (List Char × CatalogEntry)) (hd : dictInv d) :
    dictInv (fvs.foldl filesStep d) := by
  induction fvs generalizing d with
  | nil => exact hd
  | cons fv rest ih => exact ih _ (dictInv_filesStep hd fv)

lemma dictInv_files (fvs : List FileVersion) : dictInv (files fvs) :=
  dictInv_foldl fvs [] ⟨List.nodup_nil, by simp⟩

lemma find?_of_mem_nodup {d : List (List Char × CatalogEntry)}
    {k : List Char} {v : CatalogEntry}
    (hnd : (d.map Prod.fst).Nodup) (hmem : (k, v) ∈ d) :
    d.find? (fun p => p.1 == k) = some (k, v) := by
  induction d with
  | nil => simp at hmem
  | cons p rest ih =>
    rcases List.mem_cons.1 hmem with heq | hmem2
    · subst heq
      exact List.find?_cons_of_pos _ (by simp)
    · have hk : k ∈ rest.map Prod.fst := List.mem_map.2 ⟨(k, v), hmem2, rfl⟩
      rw [List.map_cons, List.nodup_cons] at hnd
      have hne : ¬((p.1 == k) = true) := by
        intro hb
        exact hnd.1 (eq_of_beq hb ▸ hk)
      exact (List.find?_cons_of_neg rest hne).trans (ih hnd.2 hmem2)

lemma find?_map_overwrite (k : List Char) (v : CatalogEntry) :
    ∀ d : List (List Char × CatalogEntry), d.any (fun p => p.1 == k) = true →
      (d.map (fun p => if p.1 == k then (k, v) else p)).find? (fun p => p.1 == k) =
        some (k, v)
  | [], h => by simp at h
  | p :: rest, h => by
    by_cases hp : p.1 = k
    · have h2 : (if p.1 == k then (k, v) else p) = (k, v) := by simp [beq_iff_eq, hp]
      simp only [List.map_cons, h2]
      exact List.find?_cons_of_pos _ (by simp)
    · have h2 : (if p.1 == k then (k, v) else p) = p := by simp [beq_iff_eq, hp]
      have hrest : rest.any (fun p => p.1 == k) = true := by
        rcases List.any_eq_true.1 h with ⟨q, hq, hq2⟩
        rcases List.mem_cons.1 hq with rfl | hq3
        · exact absurd (eq_of_beq hq2) hp
        · exact List.any_eq_true.2 ⟨q, hq3, hq2⟩
      have hneg : ¬((p.1 == k) = true) := by simp [beq_iff_eq, hp]
      simp only [List.map_cons, h2]
      have e1 : (p :: rest.map (fun r => if r.1 == k then (k, v) else r)).find?
          (fun r => r.1 == k) =
          (rest.map (fun r => if r.1 == k then (k, v) else r)).find?
            (fun r => r.1 == k) := List.find?_cons_of_neg _ hneg
      rw [e1]
      exact find?_map_overwrite k v rest hrest

lemma find?_map_overwrite_ne (k : List Char) (v : CatalogEntry) {q : List Char}
    (hq : q ≠ k) :
    ∀ d : List (List Char × CatalogEntry),
      (d.map (fun p => if p.1 == k then (k, v) else p)).find? (fun p => p.1 == q) =
        d.find? (fun p => p.1 == q)
  | [] => rfl
  | p :: rest => by
    by_cases hp : p.1 = k
    · have h2 : (if p.1 == k then (k, v) else p) = (k, v) := by simp [beq_iff_eq, hp]
      have hnegk : ¬((((k, v) : List Char × CatalogEntry).1 == q) = true) := by
        simp only [beq_iff_eq]
        exact fun hh => hq hh.symm
      have hnegp : ¬((p.1 == q) = true) := by
        simp only [beq_iff_eq, hp]
        exact fun hh => hq hh.symm
      simp only [List.map_cons, h2]
      have e1 : ((k, v) :: rest.map (fun r => if r.1 == k then (k, v) else r)).find?
          (fun r => r.1 == q) =
          (rest.map (fun r => if r.1 == k then (k, v) else r)).find?
            (fun r => r.1 == q) := List.find?_cons_of_neg _ hnegk
      have e2 : (p :: rest).find? (fun r => r.1 == q) =
          rest.find? (fun r => r.1 == q) := List.find?_cons_of_neg _ hnegp
      rw [e1, e2]
      exact find?_map_overwrite_ne k v hq rest
    · have h2 : (if p.1 == k then (k, v) else p) = p := by simp [beq_iff_eq, hp]
      simp only [List.map_cons, h2]
      by_cases hpq : p.1 = q
      · have hpos : (p.1 == q) = true := by simp [beq_iff_eq, hpq]
        have e1 : (p :: rest.map (fun r => if r.1 == k then (k, v) else r)).find?
            (fun r => r.1 == q) = some p := List.find?_cons_of_pos _ hpos
        have e2 : (p :: rest).find? (fun r => r.1 == q) = some p :=
          List.find?_cons_of_pos _ hpos
        rw [e1, e2]
      · have hneg : ¬((p.1 == q) = true) := by simp [beq_iff_eq, hpq]
        have e1 : (p :: rest.map (fun r => if r.1 == k then (k, v) else r)).find?
            (fun r => r.1 == q) =
            (rest.map (fun r => if r.1 == k then (k, v) else r)).find?
              (fun r => r.1 == q) := List.find?_cons_of_neg _ hneg
        have e2 : (p :: rest).find? (fun r => r.1 == q) =
            rest.find? (fun r => r.1 == q) := List.find?_cons_of_neg _ hneg
        rw [e1, e2]
        exact find?_map_overwrite_ne k v hq rest

lemma dictFind_dictInsert_self (d : List (List Char × CatalogEntry))
    (k : List Char) (v : CatalogEntry) :
    dictFind (dictInsert d k v) k = some v := by
  unfold dictFind dictInsert
  split
  · next hany => rw [find?_map_overwrite k v d hany]; rfl
  · next hany =>
    rw [List.find?_append]
    have h1 : d.find? (fun p => p.1 == k) = none := by
      rw [List.find?_eq_none]
      intro x hx hb
      exact hany (List.any_eq_true.2 ⟨x, hx, hb⟩)
    have h2 : List.find? (fun p => p.1 == k) [(k, v)] = some (k, v) :=
      List.find?_cons_of_pos _ (by simp)
    rw [h1, h2]
    rfl

lemma dictFind_dictInsert_ne (d : List (List Char × CatalogEntry))
    (k : List Char) (v : CatalogEntry) {q : List Char} (hq : q ≠ k) :
    dictFind (dictInsert d k v) q = dictFind d q := by
  unfold dictFind dictInsert
  split
  · rw [find?_map_overwrite_ne k v hq d]
  · rw [List.find?_append]
    have hngk : ¬((((k, v) : List Char × CatalogEntry).1 == q) = true) := by
      simp only [beq_iff_eq]
      exact fun hh => hq hh.symm
    have h1 : List.find? (fun p => p.1 == q) [(k, v)] =
        List.find? (fun p => p.1 == q) ([] : List (List Char × CatalogEntry)) :=
      List.find?_cons_of_neg _ hngk
    rw [h1]
    cases List.find? (fun p => p.1 == q) d <;> rfl

lemma files_concat (l : List FileVersion) (a : FileVersion) :
    files (l ++ [a]) = filesStep (files l) a := by
  unfold files
  rw [List.foldl_append]
  rfl

lemma dictFind_files (fvs : List FileVersion) (k : List Char) :
    dictFind (files fvs) k = lastPdfMatch fvs k := by
  induction fvs using List.reverseRecOn with
  | nil => rfl
  | append_singleton l a ih =>
    rw [files_concat]
    unfold filesStep
    by_cases hpdf : pyEndswith a.file_name pdfExt = true
    · rw [if_pos hpdf]
      by_cases hk : a.file_name = k
      · subst hk
        rw [dictFind_dictInsert_self]
        unfold lastPdfMatch
        rw [List.filter_append]
        have hfa : List.filter
            (fun fv => pyEndswith fv.file_name pdfExt && fv.file_name == a.file_name)
            [a] = [a] := by
          simp [hpdf]
        rw [hfa, List.getLast?_concat]
        rfl
      · rw [dictFind_dictInsert_ne _ _ _ (fun h => hk h.symm), ih]
        unfold lastPdfMatch
        rw [List.filter_append]
        have hfa : List.filter
            (fun fv => pyEndswith fv.file_name pdfExt && fv.file_name == k)
            [a] = [] := by
          simp [beq_iff_eq, hk]
        rw [hfa, List.append_nil]
    · rw [if_neg hpdf, ih]
      unfold lastPdfMatch
      rw [List.filter_append]
      have hfa : List.filter
          (fun fv => pyEndswith fv.file_name pdfExt && fv.file_name == k)
          [a] = [] := by
        simp [hpdf]
      rw [hfa, List.append_nil]

lemma mem_file_list {fvs : List FileVersion} {e : CatalogEntry} :
    e ∈ file_list fvs ↔ e ∈ (files fvs).map Prod.snd :=
  (List.perm_insertionSort catalogLE ((files fvs).map Prod.snd)).mem_iff

lemma mem_file_list_pdf {fvs : List FileVersion} {e : CatalogEntry}
    (he : e ∈ file_list fvs) : pyEndswith e.name pdfExt = true := by
  rcases List.mem_map.1 (mem_file_list.1 he) with ⟨p, hp, rfl⟩
  exact ((dictInv_files fvs).2 p hp).2

lemma dictFind_of_mem_file_list {fvs : List FileVersion} {e : CatalogEntry}
    (he : e ∈ file_list fvs) : dictFind (files fvs) e.name = some e := by
  rcases List.mem_map.1 (mem_file_list.1 he) with ⟨p, hp, rfl⟩
  have hinv := dictInv_files fvs
  have hk : p.1 = p.2.name := (hinv.2 p hp).1
  have hpe : ((p.2.name, p.2) : List Char × CatalogEntry) = p := by rw [← hk]
  unfold dictFind
  rw [find?_of_mem_nodup hinv.1 (hpe ▸ hp)]
  rfl

lemma values_names_eq_keys (fvs : List FileVersion) :
    ((files fvs).map Prod.snd).map (fun e => e.name) = (files fvs).map Prod.fst := by
  rw [List.map_map]
  exact List.map_congr_left (fun p hp => ((dictInv_files fvs).2 p hp).1.symm)

lemma filter_orderedInsert (t : Nat) (a : CatalogEntry) (l : List CatalogEntry) :
    (List.orderedInsert catalogLE a l).filter (fun e => e.upload_timestamp == t) =
      if a.upload_timestamp == t then
        a :: l.filter (fun e => e.upload_timestamp == t)
      else l.filter (fun e => e.upload_timestamp == t) := by
  induction l with
  | nil =>
    by_cases hat : a.upload_timestamp = t
    · simp [List.orderedInsert, List.filter_cons, beq_iff_eq, hat]
    · simp [List.orderedInsert, List.filter_cons, beq_iff_eq, hat]
  | cons b l ih =>
    rw [List.orderedInsert]
    by_cases hab : catalogLE a b
    · rw [if_pos hab]
      simp [List.filter_cons]
    · rw [if_neg hab]
      have hlt : a.upload_timestamp < b.upload_timestamp := Nat.lt_of_not_le hab
      by_cases hat : a.upload_timestamp = t
      · have hbt : ¬(b.upload_timestamp = t) := by omega
        simp [List.filter_cons, ih, beq_iff_eq, hat, hbt]
      · simp [List.filter_cons, ih, beq_iff_eq, hat]

lemma filter_insertionSort (t : Nat) (l : List CatalogEntry) :
    (List.insertionSort catalogLE l).filter (fun e => e.upload_timestamp == t) =
      l.filter (fun e => e.upload_timestamp == t) := by
  induction l with
  | nil => rfl
  | cons a l ih =>
    rw [List.insertionSort, filter_orderedInsert]
    by_cases hat : a.upload_timestamp = t
    · simp [List.filter_cons, beq_iff_eq, hat, ih]
    · simp [List.filter_cons, beq_iff_eq, hat, ih]

lemma files_nil_of_no_pdf {fvs : List FileVersion}
    (h : ∀ fv ∈ fvs, pyEndswith fv.file_name pdfExt = false) : files fvs = [] := by
  induction fvs with
  | nil => rfl
  | cons fv rest ih =>
    unfold files at *
    rw [List.foldl_cons]
    have h1 : filesStep [] fv = [] := by
      simp [filesStep, h fv (List.mem_cons_self _ _)]
    rw [h1]
    exact ih (fun x hx => h x (List.mem_cons_of_mem _ hx))

lemma pyEndswith_variant_not_lower {suf n : List Char}
    (hlow : suf.map Char.toLower = pdfExt) (hne : suf ≠ pdfExt)
    (hend : pyEndswith n suf = true) : pyEndswith n pdfExt = false := by
  have hlen : suf.length = 4 := by
    have h := congrArg List.length hlow
    rw [List.length_map] at h
    exact h
  unfold pyEndswith at hend ⊢
  have he := eq_of_beq hend
  rw [hlen] at he
  have h4 : (pdfExt : List Char).length = 4 := rfl
  rw [h4, ← he]
  cases hq : (pdfExt == suf : Bool)
  · rfl
  · exact absurd (eq_of_beq hq).symm hne

/-- Claim C1 is false on the code: for the input
`[(a.pdf, ts 200), (a.pdf, ts 100)]` the maximum timestamp among the
same-named records is 200, yet the catalog retains the entry with
timestamp 100 — the loop at lines 139-148 assigns `files[name]`
unconditionally, so the last record in arrival order wins, not the one
with the maximum `upload_timestamp`. -/
theorem c1_counterexample :
    (file_list [⟨"4_z001", "a.pdf".toList, 1, 200⟩,
        ⟨"4_z002", "a.pdf".toList, 1, 100⟩]).map
      (fun e => (e.name, e.upload_timestamp)) = [("a.pdf".toList, 100)] ∧
    ¬ (∀ e ∈ file_list [⟨"4_z001", "a.pdf".toList, 1, 200⟩,
        ⟨"4_z002", "a.pdf".toList, 1, 100⟩],
        e.upload_timestamp = Nat.max 200 100) := by
  decide

/-- Claim C1 (amended): for every input sequence, the catalog entry retained
for a name is the last record with that name (among records passing the
extension filter) in input order — last-arrival-wins, which coincides with
maximum-timestamp only when same-named records arrive in non-decreasing
timestamp order. -/
theorem c1_amended_retained_is_last_same_named (fvs : List FileVersion)
    (e : CatalogEntry) (he : e ∈ file_list fvs) :
    lastPdfMatch fvs e.name = some e := by
  rw [← dictFind_files]
  exact dictFind_of_mem_file_list he

/-- Concrete instantiation of the amended claim C1 at the two-record input. -/
theorem c1_amended_witness :
    (mkEntry ⟨"4_z002", "a.pdf".toList, 1, 100⟩ ∈
      file_list [⟨"4_z001", "a.pdf".toList, 1, 200⟩,
        ⟨"4_z002", "a.pdf".toList, 1, 100⟩]) ∧
    lastPdfMatch [⟨"4_z001", "a.pdf".toList, 1, 200⟩,
        ⟨"4_z002", "a.pdf".toList, 1, 100⟩]
      (mkEntry ⟨"4_z002", "a.pdf".toList, 1, 100⟩).name =
      some (mkEntry ⟨"4_z002", "a.pdf".toList, 1, 100⟩) :=
  ⟨by decide, c1_amended_retained_is_last_same_named _ _ (by decide)⟩

/-- Claim C2: for every input sequence of stored-object records, the output
of the catalog view builder contains at most one entry per distinct file
name (the entry names are pairwise distinct). -/
theorem c2_at_most_one_entry_per_name (fvs : List FileVersion) :
    ((file_list fvs).map (fun e => e.name)).Nodup := by
  have hperm : List.Perm (file_list fvs) ((files fvs).map Prod.snd) :=
    List.perm_insertionSort catalogLE _
  rw [List.Perm.nodup_iff (hperm.map (fun e => e.name))]
  rw [values_names_eq_keys]
  exact (dictInv_files fvs).1

/-- Claim C3: the output is sorted by `upload_timestamp` descending; running
the builder twice on the same input yields the identical output (the builder
is a pure function); and the order among timestamp ties is deterministic and
stable — entries with a tied timestamp appear in exactly the pre-sort
(dictionary insertion) order. -/
theorem c3_sorted_deterministic_stable (fvs : List FileVersion) :
    List.Sorted catalogLE (file_list fvs) ∧
    file_list fvs = file_list fvs ∧
    ∀ t : Nat, (file_list fvs).filter (fun e => e.upload_timestamp == t) =
      ((files fvs).map Prod.snd).filter (fun e => e.upload_timestamp == t) :=
  ⟨List.sorted_insertionSort catalogLE _, rfl, fun t => filter_insertionSort t _⟩

/-- Claim C4: every entry in the catalog view builder's output has a name
ending in the accepted extension `.pdf`; no record failing the filter ever
appears in the output. -/
theorem c4_output_names_end_in_pdf (fvs : List FileVersion) :
    (file_list fvs).all (fun e => pyEndswith e.name pdfExt) = true := by
  rw [List.all_eq_true]
  intro e he
  exact mem_file_list_pdf he

/-- Claim C5: the empty input yields the empty output, and any input with no
record passing the extension filter yields the empty output; the builder is
a total function, so emptiness is not a failure. -/
theorem c5_empty_input_empty_output :
    file_list [] = [] ∧
    ∀ fvs : List FileVersion,
      (∀ fv ∈ fvs, pyEndswith fv.file_name pdfExt = false) → file_list fvs = [] := by
  constructor
  · rfl
  · intro fvs h
    unfold file_list
    rw [files_nil_of_no_pdf h]
    rfl

/-- Concrete instantiation of claim C5: empty input, and a one-record input
whose name does not end in `.pdf`. -/
theorem c5_witness :
    file_list [] = [] ∧ file_list [⟨"9_z", "notes.txt".toList, 3, 50⟩] = [] :=
  ⟨c5_empty_input_empty_output.1, c5_empty_input_empty_output.2 _ (by decide)⟩

/-- Claim C6: the scenario input
`[(a.pdf, ts 100), (a.pdf, ts 200), (b.pdf, ts 150)]` produces exactly
`[(a.pdf, ts 200), (b.pdf, ts 150)]`. -/
theorem c6_scenario_exact_output :
    (file_list [⟨"f1", "a.pdf".toList, 1, 100⟩, ⟨"f2", "a.pdf".toList, 1, 200⟩,
        ⟨"f3", "b.pdf".toList, 1, 150⟩]).map
      (fun e => (e.name, e.upload_timestamp)) =
      [("a.pdf".toList, 200), ("b.pdf".toList, 150)] := by
  decide

/-- Claim C7 is false as stated: when signed-URL issuance fails and the
byte-download fallback succeeds, the final rendering is an inline base64
data URL, but the path does surface errors to the user — `get_signed_url`
shows an `st.error` for the failed issuance and the fallback branch opens
with the `st.error` message announcing the alternative method. -/
theorem c7_counterexample :
    (visualizarPdf (Except.error "boom") (Except.ok "https://x")
        (Except.ok [1, 2, 3]) (Except.ok ()) (Except.ok ())).1 =
      ViewOutcome.dataUrl ("data:application/pdf;base64,AQID".toList) ∧
    ((visualizarPdf (Except.error "boom") (Except.ok "https://x")
        (Except.ok [1, 2, 3]) (Except.ok ()) (Except.ok ())).2).any isErrorMsg
      = true := by
  decide

/-- Claim C7 (amended): whenever signed-URL issuance yields no URL, the
fallback byte download is always attempted before reporting final failure;
if the download succeeds the operation ends in an inline base64 data URL,
and it ends in a failure report only when the fallback download itself
fails — though informational `st.error` messages about the failed URL
generation are displayed along the way. -/
theorem c7_amended_fallback_before_failure
    (authResult urlResult : Except String String)
    (fetchResult : Except String (List Nat))
    (saveResult readResult : Except String Unit)
    (h : (get_signed_url authResult urlResult).1 = none) :
    (visualizarPdf authResult urlResult fetchResult saveResult readResult).1 =
      match (download_file_from_b2 fetchResult saveResult readResult).2.1 with
      | Except.ok pdfBytes => ViewOutcome.dataUrl (dataPdfHref pdfBytes)
      | Except.error e => ViewOutcome.failed ("Erro ao visualizar arquivo: " ++ e) := by
  unfold visualizarPdf
  rcases hg : get_signed_url authResult urlResult with ⟨ou, msgs⟩
  rw [hg] at h
  cases ou with
  | some u => simp at h
  | none =>
    rcases hd : download_file_from_b2 fetchResult saveResult readResult with
      ⟨st, res, dmsgs⟩
    cases res with
    | ok pdfBytes => simp [hg, hd]
    | error e => simp [hg, hd]

/-- Concrete instantiation of the amended claim C7: issuance fails and the
fallback download also fails, so the outcome is the final failure report. -/
theorem c7_amended_witness :
    (get_signed_url (Except.error "x") (Except.ok "https://b")).1 = none ∧
    (visualizarPdf (Except.error "x") (Except.ok "https://b")
        (Except.error "netdown") (Except.ok ()) (Except.ok ())).1 =
      match (download_file_from_b2 (Except.error "netdown") (Except.ok ())
          (Except.ok ())).2.1 with
      | Except.ok pdfBytes => ViewOutcome.dataUrl (dataPdfHref pdfBytes)
      | Except.error e => ViewOutcome.failed ("Erro ao visualizar arquivo: " ++ e) :=
  ⟨rfl, c7_amended_fallback_before_failure _ _ _ _ _ rfl⟩

/-- Claim C8 is violated by the code: `download_file_from_b2` removes the
temporary scratch file only on the all-success path; when reading the file
raises partway, the `except` branch shows an error and re-raises without
any cleanup (there is no `finally`), so the temporary file is still present
afterward, contradicting "absent on every exit path". -/
theorem c8_temp_file_left_on_read_failure :
    (download_file_from_b2 (Except.ok [37]) (Except.ok ())
        (Except.error "read error")).1.present = true ∧
    (download_file_from_b2 (Except.ok [37]) (Except.ok ())
        (Except.ok ())).1.present = false := by
  decide

/-- Claim C9: the catalog of the browse view is a function of the storage
listing alone — any two states of the ephemeral per-session upload list
yield the identical catalog, and appending an upload record to the session
list (as tab 1 does) leaves the catalog unchanged. -/
theorem c9_catalog_independent_of_session
    (s1 s2 : List SessionUpload) (listing : List FileVersion) :
    tab2Catalog s1 listing = tab2Catalog s2 listing ∧
    ∀ (uploadResult : Except String String) (fileName : List Char)
      (fileSize now : Nat),
      tab2Catalog (uploadTab1Append s1 uploadResult fileName fileSize now) listing =
        tab2Catalog s1 listing :=
  ⟨rfl, fun _ _ _ _ => rfl⟩

/-- Claim C10: the extension filter is case-sensitive — for every uppercase
or mixed-case variant of the extension (a suffix whose ASCII lowercasing is
`.pdf` but which is not the exact lowercase `.pdf`, e.g. `.PDF` or `.Pdf`),
no entry whose name ends in that variant ever appears in the output, because
inclusion requires the name to end in the exact lowercase `.pdf`. -/
theorem c10_extension_filter_case_sensitive (fvs : List FileVersion)
    (suf n : List Char) (hlow : suf.map Char.toLower = pdfExt)
    (hne : suf ≠ pdfExt) (hend : pyEndswith n suf = true) :
    (file_list fvs).filter (fun e => e.name == n) = [] := by
  rw [List.filter_eq_nil_iff]
  intro e he hb
  have hpdf := mem_file_list_pdf he
  rw [eq_of_beq hb, pyEndswith_variant_not_lower hlow hne hend] at hpdf
  exact Bool.false_ne_true hpdf

/-- Concrete instantiation of claim C10 at the mixed-case variant `.Pdf`:
a record named `a.Pdf` is excluded. -/
theorem c10_witness :
    (".Pdf".toList).map Char.toLower = pdfExt ∧ ".Pdf".toList ≠ pdfExt ∧
    pyEndswith "a.Pdf".toList ".Pdf".toList = true ∧
    (file_list [⟨"7_z", "a.Pdf".toList, 1, 100⟩]).filter
      (fun e => e.name == "a.Pdf".toList) = [] :=
  ⟨by decide, by decide, by decide,
    c10_extension_filter_case_sensitive [⟨"7_z", "a.Pdf".toList, 1, 100⟩]
      ".Pdf".toList "a.Pdf".toList (by decide) (by decide) (by decide)⟩

end B2App
